import Mathlib

/-!
Verification of the axis-label generation core of the birog widget library:
the extended-Wilkinson tick search (src/charts/wilkinson.rs) and the decimal
precision estimator (src/charts/line.rs, get_precision).

The Rust code computes with f64.  The embedding models f64 values as exact
rationals (ℚ): every numeric literal of the source denotes the decimal it is
written as, arithmetic is exact, and the two places where the source relies
on IEEE division by zero producing an infinity are split out explicitly and
commented at the point of use.  Loop counters (j, k, z, start) are integers
in the source (u64 counters converted to f64, or f64 values obtained from
floor/ceil of finite quantities) and are modelled as ℕ/ℤ.  The source's
unbounded loop ranges (for j in 1..=u64::MAX, broken out of by score
bounds) are modelled with an explicit iteration budget ("fuel") at each
loop level; the budgets used by the top-level function are derived from the
score bounds, and the stabilisation theorem for claim C5 shows that any
larger budget yields the same result, which is the termination content of
the original break conditions.
-/

namespace Birog

/-- Inclusion policy for the generated label bounds
(source: enum LabelRange in wilkinson.rs). -/
inductive LabelRange where
  | Any
  | Included
  | Excluded
deriving DecidableEq

/-- Score weights, source: const W: [f64; 4] = [0.2, 0.25, 0.5, 0.05]. -/
def W : List ℚ := [0.2, 0.25, 0.5, 0.05]

/-- Preference-ordered nice-number multipliers,
source: const Q: [f64; 6] = [1.0, 5.0, 2.0, 2.5, 4.0, 3.0]. -/
def Q : List ℚ := [1, 5, 2, 2.5, 4, 3]

/-- Source: floored_mod(a, n) = a - n * (a / n).floor(). -/
def floored_mod (a n : ℚ) : ℚ := a - n * ⌊a / n⌋

/-- Source: fn simplicity.  v is 1 exactly when lmin sits on a step multiple
(up to the source's 1e-10 tolerance) and the range straddles zero. -/
def simplicity (qpos qlen : ℕ) (j lmin lmax lstep : ℚ) : ℚ :=
  let v : ℚ :=
    if floored_mod lmin lstep < 1 / 10 ^ 10 ∧ lmin ≤ 0 ∧ 0 ≤ lmax then 1 else 0
  1 - (qpos : ℚ) / ((qlen : ℚ) - 1) + v - j

/-- Source: fn simplicity_max. -/
def simplicity_max (qpos qlen : ℕ) (j : ℚ) : ℚ :=
  1 - (qpos : ℚ) / ((qlen : ℚ) - 1) - j + 1

/-- Source: fn coverage.  Only evaluated by the search when dmin < dmax
(the z loop breaks first on a degenerate range), so the divisor is nonzero
at every use. -/
def coverage (dmin dmax lmin lmax : ℚ) : ℚ :=
  1 - 0.5 * ((dmax - lmax) ^ 2 + (dmin - lmin) ^ 2) / (0.1 * (dmax - dmin)) ^ 2

/-- Source: fn coverage_max.  When dmax = dmin and span > 0, the f64 source
divides a positive number by zero and returns -∞; that case is handled at
the single call site (the z-loop break test) rather than here. -/
def coverage_max (dmin dmax span : ℚ) : ℚ :=
  let range := dmax - dmin
  if range < span then
    let half := (span - range) / 2
    1 - 0.5 * (half ^ 2 + half ^ 2) / (0.1 * range) ^ 2
  else 1

/-- Source: fn density.  Only evaluated on candidates with lmin < lmax and
(via the k-loop break) m ≠ 1, so both divisors are nonzero at every use. -/
def density (k m dmin dmax lmin lmax : ℚ) : ℚ :=
  let r := (k - 1) / (lmax - lmin)
  let rt := (m - 1) / (max lmax dmax - min lmin dmin)
  2 - max (r / rt) (rt / r)

/-- Source: fn density_max.  When m = 1 (and k ≥ 2 ≥ m) the f64 source
divides by zero and returns -∞; that case is handled at the single call
site (the k-loop break test) rather than here. -/
def density_max (k m : ℚ) : ℚ :=
  if m ≤ k then 2 - (k - 1) / (m - 1) else 1

/-- Source: fn score, the weighted sum with weights W. -/
def score (c s g l : ℚ) : ℚ :=
  0.2 * c + 0.25 * s + 0.5 * g + 0.05 * l

/-- The mutable accumulator of generate_labels: the best score seen so far
and the best candidate's (outmin, outmax, outstep). -/
structure SState where
  best : ℚ
  omin : ℚ
  omax : ℚ
  ostep : ℚ
deriving DecidableEq

/-- Initialisation of generate_labels: best_score = -2.0 and
outmin = outmax = outstep = 1.0. -/
def initState : SState := ⟨-2, 1, 1, 1⟩

/-- Body of the innermost while loop of generate_labels (one candidate
start position).  The three-way match on label_inclusion is rendered as an
if chain in source order: keep the state when the score does not beat the
best, when Any/Included meets a candidate strictly containing the data
range, or when Any/Excluded meets a candidate strictly inside it;
otherwise accept the candidate. -/
def evalStart (dmin dmax m : ℚ) (incl : LabelRange) (qpos : ℕ) (j k step : ℚ)
    (st : SState) (start : ℤ) : SState :=
  let lmin := (start : ℚ) * (step / j)
  let lmax := lmin + step * (k - 1)
  let lstep := step
  let c := coverage dmin dmax lmin lmax
  let s := simplicity qpos 6 j lmin lmax lstep
  let g := density k m dmin dmax lmin lmax
  let sc := score c s g 1
  if sc ≤ st.best then st
  else if (incl = .Any ∨ incl = .Included) ∧ lmin < dmin ∧ dmax < lmax then st
  else if (incl = .Any ∨ incl = .Excluded) ∧ dmin < lmin ∧ lmax < dmax then st
  else ⟨sc, lmin, lmax, lstep⟩

/-- The while loop over integer start positions min_start ≤ start ≤ max_start.
The candidate body is a parameter so that the same loop tower can also be run
with the specification's unconstrained acceptance rule (claim C2). -/
def startLoop (body : SState → ℤ → SState) (minS maxS : ℤ) (st : SState) : SState :=
  (List.range (maxS + 1 - minS).toNat).foldl (fun s i => body s (minS + (i : ℤ))) st

/-- The z loop of generate_labels, iterating the power-of-ten exponent from
z upward for at most fuel rounds.  The source breaks out when the coverage
bound makes the score bound scrt drop below best, or when the start range is
empty.  f64 note: when dmax = dmin (and span > range = 0, which holds for
every positive step), coverage_max divides by zero and yields -∞, so scrt
is -∞ and the loop breaks at once; over ℚ that case is the explicit first
disjunct of the break test. -/
def zLoop (body : ℕ → ℕ → ℕ → ℚ → SState → ℤ → SState) (dmin dmax : ℚ)
    (qpos j k : ℕ) (q sm dm : ℚ) : ℕ → ℕ → SState → SState
  | 0, _, st => st
  | fuel + 1, z, st =>
    let step := (j : ℚ) * q * 10 ^ z
    let cm := coverage_max dmin dmax (step * ((k : ℚ) - 1))
    let scrt := score cm sm dm 1
    if dmin = dmax ∨ scrt < st.best then st
    else
      let minS : ℤ := ⌊dmax / step⌋ * (j : ℤ) - ((k : ℤ) - 1) * (j : ℤ)
      let maxS : ℤ := ⌈dmin / step⌉ * (j : ℤ)
      if maxS < minS then st
      else zLoop body dmin dmax qpos j k q sm dm fuel (z + 1)
        (startLoop (body qpos j k step) minS maxS st)

/-- Ceiling of log10, saturated at 0, as the source's
(delta.log10().ceil() as u64): for delta ≤ 1 the f64 cast saturates the
negative (or -∞/NaN) ceiling at 0, and for delta > 1 the result is the
least z with delta ≤ 10^z.  The auxiliary recursion divides by 10 until
the value drops to 1 or below; the fuel 2 + delta.num.natAbs always
suffices (delta ≤ num ≤ 10^num). -/
def zStartAux : ℕ → ℚ → ℕ
  | 0, _ => 0
  | fuel + 1, d => if d ≤ 1 then 0 else zStartAux fuel (d / 10) + 1

/-- Saturated ceiling of log10 for the z-loop entry point. -/
def zStart (d : ℚ) : ℕ := zStartAux (2 + d.num.natAbs) d

/-- The k loop of generate_labels, iterating the tick count from k upward
for at most fuel rounds.  The source breaks out when the density bound
makes the score bound drop below best.  f64 note: when m = 1 (the only
divisor-zero case, since k ≥ 2), density_max is 2 - (k-1)/0 = -∞ and the
bound test breaks the loop at once; over ℚ that case is the explicit first
disjunct of the break test. -/
def kLoop (body : ℕ → ℕ → ℕ → ℚ → SState → ℤ → SState) (dmin dmax m : ℚ)
    (qpos j : ℕ) (q sm : ℚ) (zf : ℕ) : ℕ → ℕ → SState → SState
  | 0, _, st => st
  | fuel + 1, k, st =>
    let dm := density_max (k : ℚ) m
    if m = 1 ∨ score 1 sm dm 1 < st.best then st
    else
      let delta := (dmax - dmin) / ((k : ℚ) + 1) / (j : ℚ) / q
      kLoop body dmin dmax m qpos j q sm zf fuel (k + 1)
        (zLoop body dmin dmax qpos j k q sm dm zf (zStart delta) st)

/-- The loop over the preference-ordered entries of Q (with their indices,
as Q.iter().enumerate()).  The returned flag records whether the simplicity
bound test fired, which in the source is break 'j_loop. -/
def qLoop (body : ℕ → ℕ → ℕ → ℚ → SState → ℤ → SState) (dmin dmax m : ℚ)
    (j : ℕ) (kf zf : ℕ) : List (ℕ × ℚ) → SState → SState × Bool
  | [], st => (st, false)
  | (qpos, q) :: rest, st =>
    let sm := simplicity_max qpos 6 (j : ℚ)
    if score 1 sm 1 1 < st.best then (st, true)
    else qLoop body dmin dmax m j kf zf rest
      (kLoop body dmin dmax m qpos j q sm zf kf 2 st)

/-- The outer j loop of generate_labels, iterating the looseness multiplier
from j upward for at most fuel rounds, stopping when the q loop reports
break 'j_loop. -/
def jLoop (body : ℕ → ℕ → ℕ → ℚ → SState → ℤ → SState) (dmin dmax m : ℚ)
    (kf zf : ℕ) : ℕ → ℕ → SState → SState
  | 0, _, st => st
  | fuel + 1, j, st =>
    match qLoop body dmin dmax m j kf zf Q.enum st with
    | (st', true) => st'
    | (st', false) => jLoop body dmin dmax m kf zf fuel (j + 1) st'

/-- The candidate body used by the source: evalStart at the given policy.
The z loop passes the current step; qpos, j, k come from the enclosing
loops. -/
def srcBody (dmin dmax m : ℚ) (incl : LabelRange) (qpos : ℕ) (j k : ℕ)
    (step : ℚ) (st : SState) (start : ℤ) : SState :=
  evalStart dmin dmax m incl qpos (j : ℚ) (k : ℚ) step st start

/-- Iteration budget for the j loop: the score bound 1.25 - 0.25·j at
qpos = 0 falls below best_score ≥ -2 once j = 14, so 16 rounds always
contain the break. -/
def jFuel : ℕ := 16

/-- Iteration budget for the k loop: the density bound falls below
best_score ≥ -2 once k > 7·(m-1)+1, so 7·⌈m⌉ + 2 rounds always contain the
break for m ≥ 1. -/
def kFuel (m : ℚ) : ℕ := 7 * (⌈m⌉).toNat + 2

/-- Iteration budget for the z loop: the coverage bound falls below
best_score ≥ -2 once the span 10^z exceeds twice the data range, so
zStart (2·(dmax-dmin)) + 2 rounds always contain the break. -/
def zFuel (dmin dmax : ℚ) : ℕ := zStart (2 * (dmax - dmin)) + 2

/-- The full branch-and-bound search of generate_labels: the nested loops
run from j = 1, k = 2 with the candidate body of the source, producing the
final (best_score, outmin, outmax, outstep). -/
def wSearch (jf kf zf : ℕ) (dmin dmax m : ℚ) (incl : LabelRange) : SState :=
  jLoop (srcBody dmin dmax m incl) dmin dmax m kf zf jf 1 initState

/-- Result construction of generate_labels: while outmin ≤ outmax push
outmin and add outstep.  The fuel passed by generate_labels is exactly the
number of pushes the source performs. -/
def buildLabels : ℕ → ℚ → ℚ → ℚ → List ℚ
  | 0, _, _, _ => []
  | fuel + 1, omin, omax, ostep =>
    if omin ≤ omax then omin :: buildLabels fuel (omin + ostep) omax ostep else []

/-- Source: pub fn generate_labels(dmin, dmax, max_labels, label_inclusion).
The loop budgets are the derived bounds jFuel, kFuel, zFuel; the
stabilisation theorem for claim C5 shows that any larger budgets give the
same answer, so these budgets do not cut the search short. -/
def generate_labels (dmin dmax m : ℚ) (incl : LabelRange) : List ℚ :=
  let st := wSearch jFuel (kFuel m) (zFuel dmin dmax) dmin dmax m incl
  buildLabels ((⌊(st.omax - st.omin) / st.ostep⌋).toNat + 1) st.omin st.omax st.ostep

/-- Modelled from the spec for claim C2 only: the claim reads the Any policy
as imposing no containment constraint, so every candidate with a strictly
better score is accepted.  This comparator drops the two rejection branches
of evalStart and keeps everything else identical; claim C2 compares the
source's Any against it. -/
def evalStartUnfiltered (dmin dmax m : ℚ) (qpos : ℕ) (j k step : ℚ)
    (st : SState) (start : ℤ) : SState :=
  let lmin := (start : ℚ) * (step / j)
  let lmax := lmin + step * (k - 1)
  let lstep := step
  let c := coverage dmin dmax lmin lmax
  let s := simplicity qpos 6 j lmin lmax lstep
  let g := density k m dmin dmax lmin lmax
  let sc := score c s g 1
  if sc ≤ st.best then st
  else ⟨sc, lmin, lmax, lstep⟩

/-- Modelled from the spec for claim C2 only: generate_labels with the
unconstrained acceptance rule, same loop tower and budgets otherwise. -/
def generate_labels_unfiltered (dmin dmax m : ℚ) : List ℚ :=
  let st := jLoop (fun qpos j k => evalStartUnfiltered dmin dmax m qpos (j : ℚ) (k : ℚ))
    dmin dmax m (kFuel m) (zFuel dmin dmax) jFuel 1 initState
  buildLabels ((⌊(st.omax - st.omin) / st.ostep⌋).toNat + 1) st.omin st.omax st.ostep

/-- Rounding of f64: nearest integer, ties away from zero
(used by get_precision in line.rs). -/
def rustRound (x : ℚ) : ℤ := if 0 ≤ x then ⌊x + 1 / 2⌋ else ⌈x - 1 / 2⌉

/-- The loop condition of get_precision at e = 10^d: the while loop of the
source exits when (i * e).round() / e == i. -/
def roundTrip (i : ℚ) (d : ℕ) : Prop := ((rustRound (i * 10 ^ d) : ℚ)) / 10 ^ d = i

/-- Source: fn get_precision in line.rs.  e starts at 1.0 and is multiplied
by 10 until (i * e).round() / e == i; the returned value
(e.ln()/10.ln()).round() is the number d of multiplications performed, so
the model counts d directly.  The source's while loop has no iteration cap;
fuel bounds the rounds the model runs, and none reports that the source
loop was still running after that many rounds (claim C7 shows the fuel can
never be enough for i = 1/3). -/
def getPrecisionAux (i : ℚ) : ℕ → ℕ → Option ℕ
  | 0, _ => none
  | fuel + 1, d =>
    if ((rustRound (i * 10 ^ d) : ℚ)) / 10 ^ d = i then some d
    else getPrecisionAux i fuel (d + 1)

/-- get_precision with an explicit iteration budget, starting at d = 0
(e = 1.0) as the source does. -/
def get_precision (fuel : ℕ) (i : ℚ) : Option ℕ := getPrecisionAux i fuel 0

/-- The invariant of the search state, relative to the inputs: the best
score never drops below its initial -2, and the candidate triple is either
still the initialisation (1, 1, 1) or an accepted candidate: positive step,
omax = omin + (n+1)·step for a tick count n+2 ≥ 2, and the bounds respect
the policy filters that were active when it was accepted. -/
def goodState (dmin dmax : ℚ) (incl : LabelRange) (st : SState) : Prop :=
  -2 ≤ st.best ∧
  (st = initState ∨
    (-2 < st.best ∧ 0 < st.ostep ∧
      (∃ n : ℕ, st.omax = st.omin + ((n : ℚ) + 1) * st.ostep) ∧
      ((incl = .Any ∨ incl = .Included) → ¬(st.omin < dmin ∧ dmax < st.omax)) ∧
      ((incl = .Any ∨ incl = .Excluded) → ¬(dmin < st.omin ∧ st.omax < dmax))))

/-! ### The state invariant is preserved by the search -/

lemma goodState_init (dmin dmax : ℚ) (incl : LabelRange) :
    goodState dmin dmax incl initState :=
  ⟨le_refl _, Or.inl rfl⟩

lemma goodState_best {dmin dmax : ℚ} {incl : LabelRange} {st : SState}
    (h : goodState dmin dmax incl st) : -2 ≤ st.best := h.1

lemma foldl_pres {α : Type} (P : SState → Prop) (f : SState → α → SState)
    (hf : ∀ st a, P st → P (f st a)) :
    ∀ (l : List α) (st : SState), P st → P (l.foldl f st)
  | [], _, h => h
  | a :: l, st, h => foldl_pres P f hf l (f st a) (hf st a h)

lemma evalStart_pres {dmin dmax m : ℚ} {incl : LabelRange} {qpos : ℕ} {j k step : ℚ}
    {st : SState} {start : ℤ} (hk : ∃ n : ℕ, k = (n : ℚ) + 2) (hstep : 0 < step)
    (h : goodState dmin dmax incl st) :
    goodState dmin dmax incl (evalStart dmin dmax m incl qpos j k step st start) := by
  obtain ⟨n, rfl⟩ := hk
  simp only [evalStart]
  split_ifs with h1 h2 h3
  · exact h
  · exact h
  · exact h
  · have hb : st.best < score (coverage dmin dmax ((start : ℚ) * (step / j))
        ((start : ℚ) * (step / j) + step * ((n : ℚ) + 2 - 1)))
        (simplicity qpos 6 j ((start : ℚ) * (step / j))
          ((start : ℚ) * (step / j) + step * ((n : ℚ) + 2 - 1)) step)
        (density ((n : ℚ) + 2) m dmin dmax ((start : ℚ) * (step / j))
          ((start : ℚ) * (step / j) + step * ((n : ℚ) + 2 - 1))) 1 := not_le.mp h1
    refine ⟨by linarith [h.1], Or.inr ⟨by linarith [h.1], hstep, ⟨n, by ring⟩, ?_, ?_⟩⟩
    · intro hi hcon
      exact h2 ⟨hi, hcon⟩
    · intro hi hcon
      exact h3 ⟨hi, hcon⟩

lemma startLoop_pres (P : SState → Prop) (g : ℚ → SState → ℤ → SState) (step : ℚ)
    (hg : ∀ st start, P st → P (g step st start)) (minS maxS : ℤ) (st : SState)
    (h : P st) : P (startLoop (g step) minS maxS st) :=
  foldl_pres P _ (fun st' i h' => hg st' (minS + (i : ℤ)) h') _ st h

section LoopPres

variable {body : ℕ → ℕ → ℕ → ℚ → SState → ℤ → SState} {P : SState → Prop}

lemma zLoop_pres
    (hbody : ∀ (qpos j k : ℕ) (step : ℚ) (st : SState) (start : ℤ),
      1 ≤ j → 2 ≤ k → 0 < step → P st → P (body qpos j k step st start))
    (dmin dmax : ℚ) (qpos : ℕ) {j k : ℕ} (q sm dm : ℚ)
    (hj : 1 ≤ j) (hk : 2 ≤ k) (hq : 0 < q) :
    ∀ (fuel z : ℕ) (st : SState), P st →
      P (zLoop body dmin dmax qpos j k q sm dm fuel z st) := by
  intro fuel
  induction fuel with
  | zero => intro z st h; exact h
  | succ fuel ih =>
    intro z st h
    simp only [zLoop]
    have hstep : (0 : ℚ) < (j : ℚ) * q * 10 ^ z := by
      have hjq : (0 : ℚ) < (j : ℚ) := by exact_mod_cast Nat.lt_of_lt_of_le Nat.zero_lt_one hj
      positivity
    split_ifs with h1 h2
    · exact h
    · exact h
    · exact ih _ _ (startLoop_pres P (body qpos j k) _
        (fun st' start h' => hbody qpos j k _ st' start hj hk hstep h') _ _ st h)

lemma kLoop_pres
    (hbody : ∀ (qpos j k : ℕ) (step : ℚ) (st : SState) (start : ℤ),
      1 ≤ j → 2 ≤ k → 0 < step → P st → P (body qpos j k step st start))
    (dmin dmax m : ℚ) (qpos : ℕ) {j : ℕ} (q sm : ℚ) (zf : ℕ)
    (hj : 1 ≤ j) (hq : 0 < q) :
    ∀ (fuel k : ℕ) (st : SState), 2 ≤ k → P st →
      P (kLoop body dmin dmax m qpos j q sm zf fuel k st) := by
  intro fuel
  induction fuel with
  | zero => intro k st _ h; exact h
  | succ fuel ih =>
    intro k st hk h
    simp only [kLoop]
    split_ifs with h1
    · exact h
    · exact ih (k + 1) _ (le_trans hk (Nat.le_succ k))
        (zLoop_pres hbody dmin dmax qpos q sm _ hj hk hq zf _ st h)

lemma qLoop_pres
    (hbody : ∀ (qpos j k : ℕ) (step : ℚ) (st : SState) (start : ℤ),
      1 ≤ j → 2 ≤ k → 0 < step → P st → P (body qpos j k step st start))
    (dmin dmax m : ℚ) {j : ℕ} (kf zf : ℕ) (hj : 1 ≤ j) :
    ∀ (l : List (ℕ × ℚ)) (st : SState), (∀ p ∈ l, 0 < p.2) → P st →
      P (qLoop body dmin dmax m j kf zf l st).1 := by
  intro l
  induction l with
  | nil => intro st _ h; exact h
  | cons p rest ih =>
    intro st hl h
    obtain ⟨qpos, q⟩ := p
    simp only [qLoop]
    split_ifs with h1
    · exact h
    · exact ih _ (fun p hp => hl p (List.mem_cons_of_mem _ hp))
        (kLoop_pres hbody dmin dmax m qpos q _ zf hj
          (hl ⟨qpos, q⟩ (List.mem_cons_self _ _)) kf 2 st (le_refl 2) h)

lemma jLoop_pres
    (hbody : ∀ (qpos j k : ℕ) (step : ℚ) (st : SState) (start : ℤ),
      1 ≤ j → 2 ≤ k → 0 < step → P st → P (body qpos j k step st start))
    (dmin dmax m : ℚ) (kf zf : ℕ)
    (hQ : ∀ p ∈ Q.enum, 0 < p.2) :
    ∀ (fuel j : ℕ) (st : SState), 1 ≤ j → P st →
      P (jLoop body dmin dmax m kf zf fuel j st) := by
  intro fuel
  induction fuel with
  | zero => intro j st _ h; exact h
  | succ fuel ih =>
    intro j st hj h
    have hq1 : P (qLoop body dmin dmax m j kf zf Q.enum st).1 :=
      qLoop_pres hbody dmin dmax m kf zf hj Q.enum st hQ h
    simp only [jLoop]
    rcases hqe : qLoop body dmin dmax m j kf zf Q.enum st with ⟨st', brk⟩
    rw [hqe] at hq1
    cases brk
    · exact ih (j + 1) st' (le_trans hj (Nat.le_succ j)) hq1
    · exact hq1

end LoopPres

lemma srcBody_hbody (dmin dmax m : ℚ) (incl : LabelRange) :
    ∀ (qpos j k : ℕ) (step : ℚ) (st : SState) (start : ℤ),
      1 ≤ j → 2 ≤ k → 0 < step → goodState dmin dmax incl st →
      goodState dmin dmax incl (srcBody dmin dmax m incl qpos j k step st start) := by
  intro qpos j k step st start _ hk hstep h
  have hk2 : (k : ℚ) = ((k - 2 : ℕ) : ℚ) + 2 := by
    have : k = (k - 2) + 2 := by omega
    conv_lhs => rw [this]
    push_cast
    ring
  exact evalStart_pres ⟨k - 2, hk2⟩ hstep h

lemma Q_enum_eq : Q.enum = [(0, 1), (1, 5), (2, 2), (3, 2.5), (4, 4), (5, 3)] := rfl

lemma Q_enum_one_le : ∀ p ∈ Q.enum, (1 : ℚ) ≤ p.2 := by
  rw [Q_enum_eq]
  intro p hp
  fin_cases hp <;> norm_num

lemma Q_enum_pos : ∀ p ∈ Q.enum, (0 : ℚ) < p.2 :=
  fun p hp => lt_of_lt_of_le one_pos (Q_enum_one_le p hp)

lemma wSearch_good (jf kf zf : ℕ) (dmin dmax m : ℚ) (incl : LabelRange) :
    goodState dmin dmax incl (wSearch jf kf zf dmin dmax m incl) :=
  jLoop_pres (srcBody_hbody dmin dmax m incl) dmin dmax m kf zf Q_enum_pos
    jf 1 initState (le_refl 1) (goodState_init dmin dmax incl)

/-! ### Structure of the emitted label list -/

lemma map_range_succ_cons (o s : ℚ) (n : ℕ) :
    (List.range (n + 1 + 1)).map (fun i : ℕ => o + (i : ℚ) * s)
      = o :: (List.range (n + 1)).map (fun i : ℕ => (o + s) + (i : ℚ) * s) := by
  rw [List.range_succ_eq_map, List.map_cons, List.map_map]
  refine congrArg₂ _ (by norm_num) (List.map_congr_left ?_)
  intro a _
  simp only [Function.comp_apply]
  push_cast
  ring

lemma buildLabels_succ (fuel : ℕ) (omin omax ostep : ℚ) (h : omin ≤ omax) :
    buildLabels (fuel + 1) omin omax ostep
      = omin :: buildLabels fuel (omin + ostep) omax ostep := by
  rw [buildLabels]
  rw [if_pos h]

lemma buildLabels_eq_map (ostep : ℚ) (hpos : 0 < ostep) :
    ∀ (n : ℕ) (omin : ℚ),
      buildLabels (n + 1) omin (omin + (n : ℚ) * ostep) ostep
        = (List.range (n + 1)).map (fun i : ℕ => omin + (i : ℚ) * ostep) := by
  intro n
  induction n with
  | zero =>
    intro omin
    rw [buildLabels_succ 0 omin _ _ (by norm_num)]
    simp [buildLabels, List.range_succ]
  | succ n ih =>
    intro omin
    have hle : omin ≤ omin + ((n + 1 : ℕ) : ℚ) * ostep := by
      have h0 : (0 : ℚ) ≤ ((n + 1 : ℕ) : ℚ) := by positivity
      nlinarith
    have hshift : omin + ((n + 1 : ℕ) : ℚ) * ostep = (omin + ostep) + (n : ℚ) * ostep := by
      push_cast
      ring
    rw [map_range_succ_cons, buildLabels_succ _ _ _ _ hle, hshift, ih (omin + ostep)]

lemma map_range_head (f : ℕ → ℚ) (n : ℕ) :
    ((List.range (n + 1)).map f).head? = some (f 0) := by
  rw [List.range_succ_eq_map, List.map_cons, List.head?_cons]

lemma map_range_getLast (f : ℕ → ℚ) (n : ℕ) :
    ((List.range (n + 1)).map f).getLast? = some (f n) := by
  rw [List.range_succ, List.map_append, List.map_cons, List.map_nil, List.getLast?_concat]

lemma chain_map_range (s : ℚ) :
    ∀ (n : ℕ) (o : ℚ),
      List.Chain' (fun a b => b = a + s)
        ((List.range (n + 1)).map (fun i : ℕ => o + (i : ℚ) * s)) := by
  intro n
  induction n with
  | zero =>
    intro o
    simp [List.range_succ]
  | succ n ih =>
    intro o
    rw [map_range_succ_cons, List.chain'_cons']
    refine ⟨?_, ih (o + s)⟩
    intro b hb
    rw [map_range_head] at hb
    simp only [Option.mem_def, Option.some_inj] at hb
    rw [← hb]
    norm_num

lemma goodState_shape {dmin dmax : ℚ} {incl : LabelRange} {st : SState}
    (h : goodState dmin dmax incl st) :
    0 < st.ostep ∧ ∃ n : ℕ, st.omax = st.omin + (n : ℚ) * st.ostep := by
  rcases h.2 with rfl | ⟨_, hpos, ⟨n, hn⟩, _, _⟩
  · exact ⟨one_pos, 0, by norm_num [initState]⟩
  · exact ⟨hpos, n + 1, by rw [hn]; push_cast; ring⟩

lemma buildLabels_of_shape {st : SState} (hpos : 0 < st.ostep) {n : ℕ}
    (hn : st.omax = st.omin + (n : ℚ) * st.ostep) :
    buildLabels ((⌊(st.omax - st.omin) / st.ostep⌋).toNat + 1) st.omin st.omax st.ostep
      = (List.range (n + 1)).map (fun i : ℕ => st.omin + (i : ℚ) * st.ostep) := by
  have hfl : ⌊(st.omax - st.omin) / st.ostep⌋ = (n : ℤ) := by
    rw [hn, add_sub_cancel_left, mul_div_assoc, div_self (ne_of_gt hpos), mul_one]
    exact Int.floor_natCast n
  rw [hfl, Int.toNat_natCast, hn]
  exact buildLabels_eq_map st.ostep hpos n st.omin

lemma generate_labels_eq_map (dmin dmax m : ℚ) (incl : LabelRange) :
    ∃ n : ℕ,
      (wSearch jFuel (kFuel m) (zFuel dmin dmax) dmin dmax m incl).omax
        = (wSearch jFuel (kFuel m) (zFuel dmin dmax) dmin dmax m incl).omin
          + (n : ℚ) * (wSearch jFuel (kFuel m) (zFuel dmin dmax) dmin dmax m incl).ostep ∧
      generate_labels dmin dmax m incl
        = (List.range (n + 1)).map
            (fun i : ℕ => (wSearch jFuel (kFuel m) (zFuel dmin dmax) dmin dmax m incl).omin
              + (i : ℚ) * (wSearch jFuel (kFuel m) (zFuel dmin dmax) dmin dmax m incl).ostep) := by
  obtain ⟨hpos, n, hn⟩ :=
    goodState_shape (wSearch_good jFuel (kFuel m) (zFuel dmin dmax) dmin dmax m incl)
  exact ⟨n, hn, buildLabels_of_shape hpos hn⟩

lemma generate_labels_head (dmin dmax m : ℚ) (incl : LabelRange) :
    (generate_labels dmin dmax m incl).head?
      = some (wSearch jFuel (kFuel m) (zFuel dmin dmax) dmin dmax m incl).omin := by
  obtain ⟨n, _, hmap⟩ := generate_labels_eq_map dmin dmax m incl
  rw [hmap, map_range_head]
  norm_num

lemma generate_labels_last (dmin dmax m : ℚ) (incl : LabelRange) :
    (generate_labels dmin dmax m incl).getLast?
      = some (wSearch jFuel (kFuel m) (zFuel dmin dmax) dmin dmax m incl).omax := by
  obtain ⟨n, hn, hmap⟩ := generate_labels_eq_map dmin dmax m incl
  rw [hmap, map_range_getLast, hn]

/-! ### Degenerate range: the search never leaves the initial state -/

lemma zLoop_degenerate (body : ℕ → ℕ → ℕ → ℚ → SState → ℤ → SState) (d : ℚ)
    (qpos j k : ℕ) (q sm dm : ℚ) :
    ∀ (fuel z : ℕ) (st : SState), zLoop body d d qpos j k q sm dm fuel z st = st := by
  intro fuel z st
  cases fuel with
  | zero => rfl
  | succ fuel =>
    simp only [zLoop]
    rw [if_pos (Or.inl trivial)]

lemma kLoop_degenerate (body : ℕ → ℕ → ℕ → ℚ → SState → ℤ → SState) (d m : ℚ)
    (qpos j : ℕ) (q sm : ℚ) (zf : ℕ) :
    ∀ (fuel k : ℕ) (st : SState), kLoop body d d m qpos j q sm zf fuel k st = st := by
  intro fuel
  induction fuel with
  | zero => intro k st; rfl
  | succ fuel ih =>
    intro k st
    simp only [kLoop]
    split_ifs with h1
    · rfl
    · rw [zLoop_degenerate, ih]

lemma qLoop_degenerate (body : ℕ → ℕ → ℕ → ℚ → SState → ℤ → SState) (d m : ℚ)
    (j kf zf : ℕ) :
    ∀ (l : List (ℕ × ℚ)) (st : SState), (qLoop body d d m j kf zf l st).1 = st := by
  intro l
  induction l with
  | nil => intro st; rfl
  | cons p rest ih =>
    intro st
    obtain ⟨qpos, q⟩ := p
    simp only [qLoop]
    split_ifs with h1
    · rfl
    · rw [kLoop_degenerate, ih]

lemma jLoop_degenerate (body : ℕ → ℕ → ℕ → ℚ → SState → ℤ → SState) (d m : ℚ)
    (kf zf : ℕ) :
    ∀ (fuel j : ℕ) (st : SState), jLoop body d d m kf zf fuel j st = st := by
  intro fuel
  induction fuel with
  | zero => intro j st; rfl
  | succ fuel ih =>
    intro j st
    have h1 : (qLoop body d d m j kf zf Q.enum st).1 = st := qLoop_degenerate body d m j kf zf Q.enum st
    simp only [jLoop]
    rcases hqe : qLoop body d d m j kf zf Q.enum st with ⟨st', brk⟩
    rw [hqe] at h1
    simp only at h1
    subst h1
    cases brk
    · exact ih (j + 1) st'
    · rfl

lemma wSearch_degenerate (jf kf zf : ℕ) (d m : ℚ) (incl : LabelRange) :
    wSearch jf kf zf d d m incl = initState :=
  jLoop_degenerate _ d m kf zf jf 1 initState

lemma buildLabels_initState :
    buildLabels ((⌊(initState.omax - initState.omin) / initState.ostep⌋).toNat + 1)
      initState.omin initState.omax initState.ostep = [1] := by
  have h0 : (⌊(initState.omax - initState.omin) / initState.ostep⌋).toNat = 0 := by
    norm_num [initState]
  rw [h0]
  simp [buildLabels, initState]

lemma generate_labels_degenerate (d m : ℚ) (incl : LabelRange) :
    generate_labels d d m incl = [1] := by
  unfold generate_labels
  rw [wSearch_degenerate]
  exact buildLabels_initState

/-! ### The break conditions fire within the declared budgets -/

lemma simplicity_max_le_one {qpos : ℕ} {j : ℚ} (hj : 1 ≤ j) :
    simplicity_max qpos 6 j ≤ 1 := by
  unfold simplicity_max
  have h0 : (0 : ℚ) ≤ (qpos : ℚ) / ((6 : ℕ) - 1 : ℚ) := by positivity
  push_cast at h0 ⊢
  linarith

lemma density_max_le_one {k m : ℚ} (hm : 1 < m) : density_max k m ≤ 1 := by
  unfold density_max
  split_ifs with h
  · have h1 : (1 : ℚ) ≤ (k - 1) / (m - 1) := by
      rw [le_div_iff (by linarith)]
      linarith
    linarith
  · exact le_refl 1

lemma zStartAux_le : ∀ (f : ℕ) (d : ℚ), d ≤ 10 ^ f → d ≤ 10 ^ zStartAux f d := by
  intro f
  induction f with
  | zero => intro d h; exact h
  | succ f ih =>
    intro d h
    simp only [zStartAux]
    split_ifs with h1
    · simpa using h1
    · have hdiv : d / 10 ≤ 10 ^ f := by
        rw [div_le_iff (by norm_num : (0:ℚ) < 10)]
        calc d ≤ 10 ^ (f + 1) := h
        _ = 10 ^ f * 10 := by ring
      have := ih (d / 10) hdiv
      rw [div_le_iff (by norm_num : (0:ℚ) < 10)] at this
      calc d ≤ 10 ^ zStartAux f (d / 10) * 10 := this
      _ = 10 ^ (zStartAux f (d / 10) + 1) := by ring

lemma le_pow_zStart (d : ℚ) : d ≤ 10 ^ zStart d := by
  rcases le_or_lt d 1 with h1 | h1
  · calc d ≤ 1 := h1
    _ ≤ 10 ^ zStart d := by
        have h := pow_le_pow_left (by norm_num : (0:ℚ) ≤ 1)
          (by norm_num : (1:ℚ) ≤ 10) (zStart d)
        simpa using h
  · have hd0 : 0 < d := lt_trans one_pos h1
    have hnum : 0 < d.num := Rat.num_pos.mpr hd0
    have hden1 : (1 : ℚ) ≤ (d.den : ℚ) := by
      have := d.pos
      exact_mod_cast this
    have hle_num : d ≤ (d.num : ℚ) := by
      conv_lhs => rw [← Rat.num_div_den d]
      rw [div_le_iff (by linarith : (0:ℚ) < (d.den : ℚ))]
      have hnq : (0 : ℚ) ≤ (d.num : ℚ) := by exact_mod_cast hnum.le
      nlinarith
    have hnatAbs : ((d.num.natAbs : ℕ) : ℚ) = (d.num : ℚ) := by
      rw [← Int.cast_natCast (R := ℚ), Int.natAbs_of_nonneg hnum.le]
    have hpow : ((d.num.natAbs : ℕ) : ℚ) ≤ 10 ^ d.num.natAbs := by
      have h := (Nat.lt_pow_self (by norm_num : 1 < 10) d.num.natAbs).le
      exact_mod_cast h
    have hmono : (10 : ℚ) ^ d.num.natAbs ≤ 10 ^ (2 + d.num.natAbs) :=
      pow_le_pow_right (by norm_num) (Nat.le_add_left _ 2)
    exact zStartAux_le _ d ((hle_num.trans (hnatAbs ▸ hpow)).trans hmono)

lemma coverage_max_le_of_wide {dmin dmax span : ℚ} (hlt : dmin < dmax)
    (hspan : 2 * (dmax - dmin) ≤ span) : coverage_max dmin dmax span ≤ -24 := by
  simp only [coverage_max]
  have hr : 0 < dmax - dmin := by linarith
  rw [if_pos (by linarith : dmax - dmin < span)]
  have hhalf : (dmax - dmin) / 2 ≤ (span - (dmax - dmin)) / 2 := by linarith
  have hh0 : (0 : ℚ) ≤ (dmax - dmin) / 2 := by linarith
  have hh2 : ((dmax - dmin) / 2) ^ 2 ≤ ((span - (dmax - dmin)) / 2) ^ 2 := by
    nlinarith
  have hden : (0 : ℚ) < (0.1 * (dmax - dmin)) ^ 2 := by positivity
  have key : (25 : ℚ) * (0.1 * (dmax - dmin)) ^ 2
      ≤ 0.5 * (((span - (dmax - dmin)) / 2) ^ 2 + ((span - (dmax - dmin)) / 2) ^ 2) := by
    nlinarith
  have h25 : (25 : ℚ)
      ≤ 0.5 * (((span - (dmax - dmin)) / 2) ^ 2 + ((span - (dmax - dmin)) / 2) ^ 2)
        / (0.1 * (dmax - dmin)) ^ 2 := by
    rw [le_div_iff hden]
    linarith
  linarith

lemma zLoop_done {body : ℕ → ℕ → ℕ → ℚ → SState → ℤ → SState} {dmin dmax : ℚ}
    {qpos j k : ℕ} {q sm dm : ℚ}
    (hj : 1 ≤ j) (hk : 2 ≤ k) (hq : (1 : ℚ) ≤ q) (hsm : sm ≤ 1) (hdm : dm ≤ 1)
    (hd : dmin ≤ dmax) {z : ℕ} (hz : zStart (2 * (dmax - dmin)) ≤ z) :
    ∀ (fuel : ℕ) (st : SState), -2 ≤ st.best →
      zLoop body dmin dmax qpos j k q sm dm fuel z st = st := by
  intro fuel st hbest
  cases fuel with
  | zero => rfl
  | succ fuel =>
    simp only [zLoop]
    rcases eq_or_lt_of_le hd with heq | hlt
    · rw [if_pos (Or.inl heq)]
    · have hjq : (1 : ℚ) ≤ (j : ℚ) := by exact_mod_cast hj
      have hkq : (2 : ℚ) ≤ (k : ℚ) := by exact_mod_cast hk
      have hzp : (0 : ℚ) < 10 ^ z := by positivity
      have hjq1 : (1 : ℚ) ≤ (j : ℚ) * q :=
        le_trans (by norm_num) (mul_le_mul hjq hq (by norm_num) (by linarith))
      have hstep : (10 : ℚ) ^ z ≤ (j : ℚ) * q * 10 ^ z := by nlinarith [hjq1, hzp]
      have hpow : 2 * (dmax - dmin) ≤ 10 ^ z :=
        (le_pow_zStart _).trans (pow_le_pow_right (by norm_num) hz)
      have hspan : 2 * (dmax - dmin) ≤ (j : ℚ) * q * 10 ^ z * ((k : ℚ) - 1) := by
        nlinarith
      have hcm := coverage_max_le_of_wide hlt hspan
      have hscrt : score (coverage_max dmin dmax ((j : ℚ) * q * 10 ^ z * ((k : ℚ) - 1)))
          sm dm 1 < st.best := by
        unfold score
        nlinarith
      rw [if_pos (Or.inr hscrt)]

lemma kLoop_done {body : ℕ → ℕ → ℕ → ℚ → SState → ℤ → SState} {dmin dmax m : ℚ}
    {qpos j : ℕ} {q sm : ℚ} {zf : ℕ}
    (hm : 1 ≤ m) (hsm : sm ≤ 1) {k : ℕ} (hk : 7 * (⌈m⌉).toNat ≤ k) :
    ∀ (fuel : ℕ) (st : SState), -2 ≤ st.best →
      kLoop body dmin dmax m qpos j q sm zf fuel k st = st := by
  intro fuel st hbest
  cases fuel with
  | zero => rfl
  | succ fuel =>
    simp only [kLoop]
    rcases eq_or_lt_of_le hm with heq | hm1
    · rw [if_pos (Or.inl heq.symm)]
    · have hceil0 : ((⌈m⌉).toNat : ℤ) = ⌈m⌉ :=
        Int.toNat_of_nonneg (Int.ceil_nonneg (by linarith : (0 : ℚ) ≤ m))
      have hceil : m ≤ ((⌈m⌉).toNat : ℚ) := by
        have h1 : m ≤ (⌈m⌉ : ℚ) := Int.le_ceil m
        have h2 : (((⌈m⌉).toNat : ℕ) : ℚ) = ((⌈m⌉ : ℤ) : ℚ) := by
          rw [← Int.cast_natCast (R := ℚ), hceil0]
        linarith [h2 ▸ h1]
      have hkq : 7 * m ≤ (k : ℚ) := by
        have hkc : ((7 * (⌈m⌉).toNat : ℕ) : ℚ) ≤ (k : ℚ) := by exact_mod_cast hk
        push_cast at hkc
        linarith
      have hmk : m ≤ (k : ℚ) := by nlinarith
      have hdm : density_max (k : ℚ) m < -5 := by
        unfold density_max
        rw [if_pos hmk]
        have h7 : 7 * (m - 1) < (k : ℚ) - 1 := by nlinarith
        have hdiv : 7 < ((k : ℚ) - 1) / (m - 1) := by
          rw [lt_div_iff (by linarith)]
          linarith
        linarith
      have hcond : score 1 sm (density_max (k : ℚ) m) 1 < st.best := by
        unfold score
        nlinarith
      rw [if_pos (Or.inr hcond)]

lemma qLoop_done {body : ℕ → ℕ → ℕ → ℚ → SState → ℤ → SState} {dmin dmax m : ℚ}
    {kf zf : ℕ} {j : ℕ} (hj : 14 ≤ j) (st : SState) (hbest : -2 ≤ st.best) :
    qLoop body dmin dmax m j kf zf Q.enum st = (st, true) := by
  rw [Q_enum_eq]
  have hsm : simplicity_max 0 6 (j : ℚ) = 2 - (j : ℚ) := by
    unfold simplicity_max
    norm_num
    ring
  have hjq : (14 : ℚ) ≤ (j : ℚ) := by exact_mod_cast hj
  have hcond : score 1 (simplicity_max 0 6 (j : ℚ)) 1 1 < st.best := by
    rw [hsm]
    unfold score
    nlinarith
  simp only [qLoop]
  rw [if_pos hcond]

lemma jLoop_done {body : ℕ → ℕ → ℕ → ℚ → SState → ℤ → SState} {dmin dmax m : ℚ}
    {kf zf : ℕ} :
    ∀ (fuel : ℕ) {j : ℕ} (st : SState), 14 ≤ j → -2 ≤ st.best →
      jLoop body dmin dmax m kf zf fuel j st = st := by
  intro fuel j st hj hbest
  cases fuel with
  | zero => rfl
  | succ fuel =>
    simp only [jLoop]
    rw [qLoop_done hj st hbest]

/-! ### Fuel stabilisation: larger budgets do not change the search result -/

section Stabilize

variable {body : ℕ → ℕ → ℕ → ℚ → SState → ℤ → SState} {P : SState → Prop}

lemma zLoop_all
    (hPbest : ∀ st, P st → -2 ≤ st.best)
    (hbody : ∀ (qpos j k : ℕ) (step : ℚ) (st : SState) (start : ℤ),
      1 ≤ j → 2 ≤ k → 0 < step → P st → P (body qpos j k step st start))
    {dmin dmax : ℚ} {qpos j k : ℕ} {q sm dm : ℚ}
    (hj : 1 ≤ j) (hk : 2 ≤ k) (hq : (1 : ℚ) ≤ q) (hsm : sm ≤ 1) (hdm : dm ≤ 1)
    (hd : dmin ≤ dmax) :
    ∀ (f1 f2 z : ℕ) (st : SState), P st →
      zStart (2 * (dmax - dmin)) + 1 ≤ z + f1 →
      zStart (2 * (dmax - dmin)) + 1 ≤ z + f2 →
      zLoop body dmin dmax qpos j k q sm dm f1 z st
        = zLoop body dmin dmax qpos j k q sm dm f2 z st := by
  intro f1
  induction f1 with
  | zero =>
    intro f2 z st hP h1 h2
    have : zLoop body dmin dmax qpos j k q sm dm f2 z st = st :=
      zLoop_done hj hk hq hsm hdm hd (by omega) f2 st (hPbest st hP)
    rw [this]
    rfl
  | succ f1 ih =>
    intro f2 z st hP h1 h2
    cases f2 with
    | zero =>
      have : zLoop body dmin dmax qpos j k q sm dm (f1 + 1) z st = st :=
        zLoop_done hj hk hq hsm hdm hd (by omega) (f1 + 1) st (hPbest st hP)
      rw [this]
      rfl
    | succ f2 =>
      simp only [zLoop]
      split_ifs with hbrk hrange
      · rfl
      · rfl
      · have hstep : (0 : ℚ) < (j : ℚ) * q * 10 ^ z := by
          have hjq : (1 : ℚ) ≤ (j : ℚ) := by exact_mod_cast hj
          positivity
        exact ih f2 (z + 1) _
          (startLoop_pres P (body qpos j k) _
            (fun st' start h' => hbody qpos j k _ st' start hj hk hstep h') _ _ st hP)
          (by omega) (by omega)

lemma kLoop_all
    (hPbest : ∀ st, P st → -2 ≤ st.best)
    (hbody : ∀ (qpos j k : ℕ) (step : ℚ) (st : SState) (start : ℤ),
      1 ≤ j → 2 ≤ k → 0 < step → P st → P (body qpos j k step st start))
    {dmin dmax m : ℚ} {qpos j : ℕ} {q sm : ℚ} {zf1 zf2 : ℕ}
    (hj : 1 ≤ j) (hq : (1 : ℚ) ≤ q) (hsm : sm ≤ 1) (hm : 1 ≤ m) (hd : dmin ≤ dmax)
    (hzf1 : zStart (2 * (dmax - dmin)) + 1 ≤ zf1)
    (hzf2 : zStart (2 * (dmax - dmin)) + 1 ≤ zf2) :
    ∀ (f1 f2 k : ℕ) (st : SState), P st → 2 ≤ k →
      7 * (⌈m⌉).toNat + 1 ≤ k + f1 → 7 * (⌈m⌉).toNat + 1 ≤ k + f2 →
      kLoop body dmin dmax m qpos j q sm zf1 f1 k st
        = kLoop body dmin dmax m qpos j q sm zf2 f2 k st := by
  intro f1
  induction f1 with
  | zero =>
    intro f2 k st hP hk h1 h2
    have : kLoop body dmin dmax m qpos j q sm zf2 f2 k st = st :=
      kLoop_done hm hsm (by omega) f2 st (hPbest st hP)
    rw [this]
    rfl
  | succ f1 ih =>
    intro f2 k st hP hk h1 h2
    cases f2 with
    | zero =>
      have : kLoop body dmin dmax m qpos j q sm zf1 (f1 + 1) k st = st :=
        kLoop_done hm hsm (by omega) (f1 + 1) st (hPbest st hP)
      rw [this]
      rfl
    | succ f2 =>
      simp only [kLoop]
      split_ifs with hbrk
      · rfl
      · have hm1 : 1 < m := lt_of_le_of_ne hm (Ne.symm ((not_or.mp hbrk).1))
        have hdm : density_max (k : ℚ) m ≤ 1 := density_max_le_one hm1
        have hzeq : zLoop body dmin dmax qpos j k q sm (density_max (k : ℚ) m) zf1
              (zStart ((dmax - dmin) / ((k : ℚ) + 1) / (j : ℚ) / q)) st
            = zLoop body dmin dmax qpos j k q sm (density_max (k : ℚ) m) zf2
              (zStart ((dmax - dmin) / ((k : ℚ) + 1) / (j : ℚ) / q)) st :=
          zLoop_all hPbest hbody hj hk hq hsm hdm hd zf1 zf2 _ st hP (by omega) (by omega)
        rw [hzeq]
        exact ih f2 (k + 1) _
          (zLoop_pres hbody dmin dmax qpos q sm _ hj hk (by linarith) zf2 _ st hP)
          (by omega) (by omega) (by omega)

lemma qLoop_all
    (hPbest : ∀ st, P st → -2 ≤ st.best)
    (hbody : ∀ (qpos j k : ℕ) (step : ℚ) (st : SState) (start : ℤ),
      1 ≤ j → 2 ≤ k → 0 < step → P st → P (body qpos j k step st start))
    {dmin dmax m : ℚ} {j : ℕ} {kf1 zf1 kf2 zf2 : ℕ}
    (hj : 1 ≤ j) (hm : 1 ≤ m) (hd : dmin ≤ dmax)
    (hkf1 : 7 * (⌈m⌉).toNat ≤ kf1 + 1) (hkf2 : 7 * (⌈m⌉).toNat ≤ kf2 + 1)
    (hzf1 : zStart (2 * (dmax - dmin)) + 1 ≤ zf1)
    (hzf2 : zStart (2 * (dmax - dmin)) + 1 ≤ zf2) :
    ∀ (l : List (ℕ × ℚ)) (st : SState), P st → (∀ p ∈ l, (1 : ℚ) ≤ p.2) →
      qLoop body dmin dmax m j kf1 zf1 l st = qLoop body dmin dmax m j kf2 zf2 l st := by
  intro l
  induction l with
  | nil => intro st _ _; rfl
  | cons p rest ih =>
    intro st hP hl
    obtain ⟨qpos, q⟩ := p
    simp only [qLoop]
    split_ifs with hbrk
    · rfl
    · have hq1 : (1 : ℚ) ≤ q := hl ⟨qpos, q⟩ (List.mem_cons_self _ _)
      have hsm : simplicity_max qpos 6 (j : ℚ) ≤ 1 :=
        simplicity_max_le_one (by exact_mod_cast hj)
      have hkeq : kLoop body dmin dmax m qpos j q (simplicity_max qpos 6 (j : ℚ)) zf1 kf1 2 st
          = kLoop body dmin dmax m qpos j q (simplicity_max qpos 6 (j : ℚ)) zf2 kf2 2 st :=
        kLoop_all hPbest hbody hj hq1 hsm hm hd hzf1 hzf2 kf1 kf2 2 st hP (le_refl 2)
          (by omega) (by omega)
      rw [hkeq]
      exact ih _
        (kLoop_pres hbody dmin dmax m qpos q _ zf2 hj (by linarith) kf2 2 st (le_refl 2) hP)
        (fun p hp => hl p (List.mem_cons_of_mem _ hp))

lemma jLoop_all
    (hPbest : ∀ st, P st → -2 ≤ st.best)
    (hbody : ∀ (qpos j k : ℕ) (step : ℚ) (st : SState) (start : ℤ),
      1 ≤ j → 2 ≤ k → 0 < step → P st → P (body qpos j k step st start))
    {dmin dmax m : ℚ} {kf1 zf1 kf2 zf2 : ℕ}
    (hm : 1 ≤ m) (hd : dmin ≤ dmax)
    (hkf1 : 7 * (⌈m⌉).toNat ≤ kf1 + 1) (hkf2 : 7 * (⌈m⌉).toNat ≤ kf2 + 1)
    (hzf1 : zStart (2 * (dmax - dmin)) + 1 ≤ zf1)
    (hzf2 : zStart (2 * (dmax - dmin)) + 1 ≤ zf2) :
    ∀ (f1 f2 j : ℕ) (st : SState), P st → 1 ≤ j → 15 ≤ j + f1 → 15 ≤ j + f2 →
      jLoop body dmin dmax m kf1 zf1 f1 j st = jLoop body dmin dmax m kf2 zf2 f2 j st := by
  intro f1
  induction f1 with
  | zero =>
    intro f2 j st hP hj h1 h2
    have : jLoop body dmin dmax m kf2 zf2 f2 j st = st :=
      jLoop_done f2 st (by omega) (hPbest st hP)
    rw [this]
    rfl
  | succ f1 ih =>
    intro f2 j st hP hj h1 h2
    cases f2 with
    | zero =>
      have : jLoop body dmin dmax m kf1 zf1 (f1 + 1) j st = st :=
        jLoop_done (f1 + 1) st (by omega) (hPbest st hP)
      rw [this]
      rfl
    | succ f2 =>
      simp only [jLoop]
      have hqeq : qLoop body dmin dmax m j kf1 zf1 Q.enum st
          = qLoop body dmin dmax m j kf2 zf2 Q.enum st :=
        qLoop_all hPbest hbody hj hm hd hkf1 hkf2 hzf1 hzf2 Q.enum st hP Q_enum_one_le
      rw [hqeq]
      rcases hsc : qLoop body dmin dmax m j kf2 zf2 Q.enum st with ⟨st', brk⟩
      have hP' : P st' := by
        have h := qLoop_pres hbody dmin dmax m kf2 zf2 hj Q.enum st Q_enum_pos hP
        rw [hsc] at h
        exact h
      cases brk
      · exact ih f2 (j + 1) st' hP' (by omega) (by omega) (by omega)
      · rfl

end Stabilize

lemma one_third_never_roundtrips (d : ℕ) :
    ((rustRound ((1 / 3 : ℚ) * 10 ^ d) : ℚ)) / 10 ^ d ≠ 1 / 3 := by
  intro h
  have hp : (0 : ℚ) < 10 ^ d := by positivity
  rw [div_eq_iff (ne_of_gt hp)] at h
  have h3 : (3 : ℚ) * (rustRound ((1 / 3 : ℚ) * 10 ^ d) : ℚ) = 10 ^ d := by
    rw [h]
    ring
  have hZ : (3 : ℤ) * rustRound ((1 / 3 : ℚ) * 10 ^ d) = 10 ^ d := by
    exact_mod_cast h3
  have hdvd : (3 : ℤ) ∣ 10 ^ d := ⟨_, hZ.symm⟩
  have hprime : Prime (3 : ℤ) := Int.prime_three
  have := hprime.dvd_of_dvd_pow hdvd
  norm_num at this

/-! ### The claims -/

/-- C5: generate_labels terminates for every input with data_min ≤ data_max
and target_label_count ≥ 1.  First conjunct: the search stabilises — running
the j, k and z loops with any budgets at least jFuel, kFuel, zFuel produces
the same state as the canonical budgets, because each loop's score-bound
break condition fires within those budgets (the break conditions are the
source's only exit from the otherwise unbounded 1..=u64::MAX ranges).
Second conjunct: the simplicity upper bound, and with it the j-loop's break
score, is strictly decreasing in the looseness multiplier j. -/
theorem generate_labels_terminates :
    (∀ (jf kf zf : ℕ) (dmin dmax m : ℚ) (incl : LabelRange),
      dmin ≤ dmax → 1 ≤ m → jFuel ≤ jf → kFuel m ≤ kf → zFuel dmin dmax ≤ zf →
      wSearch jf kf zf dmin dmax m incl
        = wSearch jFuel (kFuel m) (zFuel dmin dmax) dmin dmax m incl) ∧
    (∀ (qpos : ℕ) (j : ℚ),
      score 1 (simplicity_max qpos 6 (j + 1)) 1 1
        < score 1 (simplicity_max qpos 6 j) 1 1) := by
  constructor
  · intro jf kf zf dmin dmax m incl hd hm hjf hkf hzf
    have hkf1 : 7 * (⌈m⌉).toNat ≤ kf + 1 := by
      unfold kFuel at hkf
      omega
    have hkf2 : 7 * (⌈m⌉).toNat ≤ kFuel m + 1 := by
      unfold kFuel
      omega
    have hzf1 : zStart (2 * (dmax - dmin)) + 1 ≤ zf := by
      unfold zFuel at hzf
      omega
    have hzf2 : zStart (2 * (dmax - dmin)) + 1 ≤ zFuel dmin dmax := by
      unfold zFuel
      omega
    have hjf1 : 15 ≤ 1 + jf := by
      unfold jFuel at hjf
      omega
    unfold wSearch
    exact jLoop_all (P := goodState dmin dmax incl) (fun st h => h.1)
      (srcBody_hbody dmin dmax m incl) hm hd hkf1 hkf2 hzf1 hzf2 jf jFuel 1 initState
      (goodState_init dmin dmax incl) (le_refl 1) hjf1 (by unfold jFuel; omega)
  · intro qpos j
    unfold score simplicity_max
    linarith

/-- Witness for C5 at the budgets jf = 17, kf = kFuel 5 + 3, zf = zFuel 1 10 + 2
on the input (1, 10, 5, Any). -/
theorem generate_labels_terminates_witness :
    ((1 : ℚ) ≤ 10 ∧ (1 : ℚ) ≤ 5) ∧
    wSearch 17 (kFuel 5 + 3) (zFuel 1 10 + 2) 1 10 5 LabelRange.Any
      = wSearch jFuel (kFuel 5) (zFuel 1 10) 1 10 5 LabelRange.Any :=
  ⟨⟨by norm_num, by norm_num⟩,
    generate_labels_terminates.1 17 (kFuel 5 + 3) (zFuel 1 10 + 2) 1 10 5 LabelRange.Any
      (by norm_num) (by norm_num) (by unfold jFuel; omega)
      (Nat.le_add_right _ _) (Nat.le_add_right _ _)⟩

/-- C6: for every input with data_min ≤ data_max and target_label_count ≥ 1,
the returned sequence is non-empty, every consecutive difference equals the
chosen step outstep, the step is positive, and hence the sequence is
strictly ascending. -/
theorem generate_labels_wellformed (dmin dmax m : ℚ) (incl : LabelRange)
    (hd : dmin ≤ dmax) (hm : 1 ≤ m) :
    generate_labels dmin dmax m incl ≠ [] ∧
    0 < (wSearch jFuel (kFuel m) (zFuel dmin dmax) dmin dmax m incl).ostep ∧
    List.Chain' (fun a b : ℚ =>
        b = a + (wSearch jFuel (kFuel m) (zFuel dmin dmax) dmin dmax m incl).ostep)
      (generate_labels dmin dmax m incl) ∧
    List.Chain' (fun a b : ℚ => a < b) (generate_labels dmin dmax m incl) := by
  obtain ⟨hpos, _⟩ :=
    goodState_shape (wSearch_good jFuel (kFuel m) (zFuel dmin dmax) dmin dmax m incl)
  obtain ⟨n, hn, hmap⟩ := generate_labels_eq_map dmin dmax m incl
  have hchain : List.Chain' (fun a b : ℚ =>
      b = a + (wSearch jFuel (kFuel m) (zFuel dmin dmax) dmin dmax m incl).ostep)
      (generate_labels dmin dmax m incl) := by
    rw [hmap]
    exact chain_map_range _ n _
  refine ⟨?_, hpos, hchain, ?_⟩
  · rw [hmap]
    apply List.ne_nil_of_length_pos
    simp
  · exact hchain.imp (fun a b h => by rw [h]; linarith)

/-- Witness for C6 at the input (1, 10, 5, Any). -/
theorem generate_labels_wellformed_witness :
    ((1 : ℚ) ≤ 10 ∧ (1 : ℚ) ≤ 5) ∧
    (generate_labels 1 10 5 LabelRange.Any ≠ [] ∧
      0 < (wSearch jFuel (kFuel 5) (zFuel 1 10) 1 10 5 LabelRange.Any).ostep ∧
      List.Chain' (fun a b : ℚ =>
          b = a + (wSearch jFuel (kFuel 5) (zFuel 1 10) 1 10 5 LabelRange.Any).ostep)
        (generate_labels 1 10 5 LabelRange.Any) ∧
      List.Chain' (fun a b : ℚ => a < b) (generate_labels 1 10 5 LabelRange.Any)) :=
  ⟨⟨by norm_num, by norm_num⟩,
    generate_labels_wellformed 1 10 5 LabelRange.Any (by norm_num) (by norm_num)⟩

/-- C1 (amended): the Included policy does not guarantee that the generated
bounds cover the data range; what the filter enforces is the opposite
direction: the result never strictly contains the data range on both sides
(first < data_min and data_max < last never both hold). -/
theorem included_policy_no_strict_containment (dmin dmax m : ℚ) (hd : dmin ≤ dmax)
    (x y : ℚ)
    (hx : (generate_labels dmin dmax m LabelRange.Included).head? = some x)
    (hy : (generate_labels dmin dmax m LabelRange.Included).getLast? = some y) :
    ¬(x < dmin ∧ dmax < y) := by
  rw [generate_labels_head] at hx
  rw [generate_labels_last] at hy
  have hx' : x = (wSearch jFuel (kFuel m) (zFuel dmin dmax) dmin dmax m
      LabelRange.Included).omin := (Option.some_inj.mp hx).symm
  have hy' : y = (wSearch jFuel (kFuel m) (zFuel dmin dmax) dmin dmax m
      LabelRange.Included).omax := (Option.some_inj.mp hy).symm
  subst hx'
  subst hy'
  rcases (wSearch_good jFuel (kFuel m) (zFuel dmin dmax) dmin dmax m
      LabelRange.Included).2 with hinit | ⟨_, _, _, hIncl, _⟩
  · rw [hinit]
    rintro ⟨h1, h2⟩
    simp only [initState] at h1 h2
    linarith
  · exact hIncl (Or.inr rfl)

/-- C3 (amended): the Excluded policy does not guarantee that the generated
bounds stay within the data range; what the filter enforces is the opposite
direction: unless the result is the untouched default (omin = omax = 1), it
never sits strictly inside the data range on both sides. -/
theorem excluded_policy_not_strictly_inside (dmin dmax m : ℚ) (x y : ℚ)
    (hx : (generate_labels dmin dmax m LabelRange.Excluded).head? = some x)
    (hy : (generate_labels dmin dmax m LabelRange.Excluded).getLast? = some y) :
    (x = 1 ∧ y = 1) ∨ ¬(dmin < x ∧ y < dmax) := by
  rw [generate_labels_head] at hx
  rw [generate_labels_last] at hy
  have hx' : x = (wSearch jFuel (kFuel m) (zFuel dmin dmax) dmin dmax m
      LabelRange.Excluded).omin := (Option.some_inj.mp hx).symm
  have hy' : y = (wSearch jFuel (kFuel m) (zFuel dmin dmax) dmin dmax m
      LabelRange.Excluded).omax := (Option.some_inj.mp hy).symm
  subst hx'
  subst hy'
  rcases (wSearch_good jFuel (kFuel m) (zFuel dmin dmax) dmin dmax m
      LabelRange.Excluded).2 with hinit | ⟨_, _, _, _, hExcl⟩
  · left
    rw [hinit]
    exact ⟨rfl, rfl⟩
  · right
    exact hExcl (Or.inr rfl)

/-- C2 (amended): the Any policy is not unconstrained.  It applies both
rejection filters, so the result never strictly contains the data range on
both sides, and (unless it is the untouched default) never sits strictly
inside it either. -/
theorem any_policy_filters (dmin dmax m : ℚ) (hd : dmin ≤ dmax) (x y : ℚ)
    (hx : (generate_labels dmin dmax m LabelRange.Any).head? = some x)
    (hy : (generate_labels dmin dmax m LabelRange.Any).getLast? = some y) :
    ¬(x < dmin ∧ dmax < y) ∧ ((x = 1 ∧ y = 1) ∨ ¬(dmin < x ∧ y < dmax)) := by
  rw [generate_labels_head] at hx
  rw [generate_labels_last] at hy
  have hx' : x = (wSearch jFuel (kFuel m) (zFuel dmin dmax) dmin dmax m
      LabelRange.Any).omin := (Option.some_inj.mp hx).symm
  have hy' : y = (wSearch jFuel (kFuel m) (zFuel dmin dmax) dmin dmax m
      LabelRange.Any).omax := (Option.some_inj.mp hy).symm
  subst hx'
  subst hy'
  rcases (wSearch_good jFuel (kFuel m) (zFuel dmin dmax) dmin dmax m
      LabelRange.Any).2 with hinit | ⟨_, _, _, hIncl, hExcl⟩
  · constructor
    · rw [hinit]
      rintro ⟨h1, h2⟩
      simp only [initState] at h1 h2
      linarith
    · left
      rw [hinit]
      exact ⟨rfl, rfl⟩
  · exact ⟨hIncl (Or.inl rfl), Or.inr (hExcl (Or.inl rfl))⟩

/-- C8: the degenerate range terminates and yields a finite, non-empty label
set: generate_labels(5, 5, 5, Any) = [1.0], and every degenerate call
returns a non-empty list. -/
theorem degenerate_range_ok :
    generate_labels 5 5 5 LabelRange.Any = [1] ∧
    ∀ (v m : ℚ) (incl : LabelRange), generate_labels v v m incl ≠ [] := by
  refine ⟨generate_labels_degenerate 5 5 LabelRange.Any, ?_⟩
  intro v m incl
  rw [generate_labels_degenerate]
  exact List.cons_ne_nil 1 []

/-- C10: whenever the search accepts no candidate (equivalently, best_score
is still its initial -2), and in particular for every degenerate range
data_min = data_max under every policy, the result is exactly the
one-element sequence [1.0] from the initialisation defaults. -/
theorem no_acceptance_default (dmin dmax m : ℚ) (incl : LabelRange) :
    ((wSearch jFuel (kFuel m) (zFuel dmin dmax) dmin dmax m incl).best = -2 →
      generate_labels dmin dmax m incl = [1]) ∧
    (dmin = dmax → generate_labels dmin dmax m incl = [1]) := by
  constructor
  · intro hbest
    rcases (wSearch_good jFuel (kFuel m) (zFuel dmin dmax) dmin dmax m incl).2 with
      hinit | ⟨hgt, _, _, _, _⟩
    · unfold generate_labels
      rw [hinit]
      exact buildLabels_initState
    · exact absurd hbest (by intro h; rw [h] at hgt; exact lt_irrefl _ hgt)
  · intro h
    subst h
    exact generate_labels_degenerate dmin m incl

/-- Witness for C10 at the input (5, 5, 5, Any), where the degenerate range
means the search accepts nothing. -/
theorem no_acceptance_default_witness :
    ((wSearch jFuel (kFuel 5) (zFuel 5 5) 5 5 5 LabelRange.Any).best = -2 ∧
      (5 : ℚ) = 5) ∧
    generate_labels 5 5 5 LabelRange.Any = [1] :=
  ⟨⟨by rw [wSearch_degenerate]; rfl, rfl⟩,
    (no_acceptance_default 5 5 5 LabelRange.Any).1 (by rw [wSearch_degenerate]; rfl)⟩

/-- C7 (the code lacks the claimed cap): get_precision's while loop has no
iteration cap and never exits for i = 1/3 — with any budget, the loop is
still running, so no capped fallback of 15 digits is ever returned.  The
claim's capped behaviour is absent from the code. -/
theorem get_precision_no_cap :
    ∀ (fuel d : ℕ), getPrecisionAux (1 / 3) fuel d = none := by
  intro fuel
  induction fuel with
  | zero => intro d; rfl
  | succ fuel ih =>
    intro d
    simp only [getPrecisionAux]
    rw [if_neg (one_third_never_roundtrips d)]
    exact ih (d + 1)

section ConcreteEvaluations

attribute [local semireducible] Rat.add Rat.mul Rat.sub Rat.inv Rat.ofScientific

set_option maxRecDepth 40000

/-- C4: generate_labels(1.0, 10.0, 5.0, Any) returns exactly
[0.0, 2.5, 5.0, 7.5, 10.0] (the repository's own test case). -/
theorem generate_labels_example :
    generate_labels 1 10 5 LabelRange.Any = [0, 2.5, 5, 7.5, 10] := by
  decide

/-- C1 counterexample: at (2, 9, 3, Included) the result is [3, 6, 9], whose
first value 3 is not ≤ data_min = 2, so Included does not make the generated
bounds cover the data range. -/
theorem included_policy_cex :
    generate_labels 2 9 3 LabelRange.Included = [3, 6, 9] ∧
    (generate_labels 2 9 3 LabelRange.Included).head? = some 3 ∧
    ¬((3 : ℚ) ≤ 2) := by
  have h : generate_labels 2 9 3 LabelRange.Included = [3, 6, 9] := by decide
  exact ⟨h, by rw [h]; rfl, by norm_num⟩

/-- Witness for the amended C1 at the degenerate input (5, 5, 5, Included),
whose result is the default [1.0]. -/
theorem included_policy_no_strict_containment_witness :
    ((5 : ℚ) ≤ 5 ∧
      (generate_labels 5 5 5 LabelRange.Included).head? = some 1 ∧
      (generate_labels 5 5 5 LabelRange.Included).getLast? = some 1) ∧
    ¬((1 : ℚ) < 5 ∧ (5 : ℚ) < 1) :=
  ⟨⟨le_refl 5, by rw [generate_labels_degenerate]; rfl, by rw [generate_labels_degenerate]; rfl⟩,
    included_policy_no_strict_containment 5 5 5 (le_refl 5) 1 1
      (by rw [generate_labels_degenerate]; rfl) (by rw [generate_labels_degenerate]; rfl)⟩

/-- C3 counterexample: at (1, 10, 5, Excluded) the result is
[0, 2.5, 5, 7.5, 10], whose first value 0 is not ≥ data_min = 1, so Excluded
does not keep the generated bounds inside the data range. -/
theorem excluded_policy_cex :
    generate_labels 1 10 5 LabelRange.Excluded = [0, 2.5, 5, 7.5, 10] ∧
    (generate_labels 1 10 5 LabelRange.Excluded).head? = some 0 ∧
    ¬((1 : ℚ) ≤ 0) := by
  have h : generate_labels 1 10 5 LabelRange.Excluded = [0, 2.5, 5, 7.5, 10] := by
    decide
  exact ⟨h, by rw [h]; rfl, by norm_num⟩

/-- Witness for the amended C3 at the degenerate input (5, 5, 5, Excluded). -/
theorem excluded_policy_not_strictly_inside_witness :
    ((generate_labels 5 5 5 LabelRange.Excluded).head? = some 1 ∧
      (generate_labels 5 5 5 LabelRange.Excluded).getLast? = some 1) ∧
    (((1 : ℚ) = 1 ∧ (1 : ℚ) = 1) ∨ ¬((5 : ℚ) < 1 ∧ (1 : ℚ) < 5)) :=
  ⟨⟨by rw [generate_labels_degenerate]; rfl, by rw [generate_labels_degenerate]; rfl⟩,
    excluded_policy_not_strictly_inside 5 5 5 1 1
      (by rw [generate_labels_degenerate]; rfl) (by rw [generate_labels_degenerate]; rfl)⟩

/-- C2 counterexample: at (1/2, 19/2, 3) the Any policy returns [0, 4, 8],
while the unconstrained comparator accepts the higher-scoring candidate
(0, 10) and returns [0, 5, 10]; Any rejected that candidate because it
strictly contains the data range, so Any is not constraint-free. -/
theorem any_policy_cex :
    generate_labels (1 / 2) (19 / 2) 3 LabelRange.Any = [0, 4, 8] ∧
    generate_labels_unfiltered (1 / 2) (19 / 2) 3 = [0, 5, 10] ∧
    generate_labels (1 / 2) (19 / 2) 3 LabelRange.Any
      ≠ generate_labels_unfiltered (1 / 2) (19 / 2) 3 := by
  have h1 : generate_labels (1 / 2) (19 / 2) 3 LabelRange.Any = [0, 4, 8] := by decide
  have h2 : generate_labels_unfiltered (1 / 2) (19 / 2) 3 = [0, 5, 10] := by decide
  refine ⟨h1, h2, ?_⟩
  rw [h1, h2]
  decide

/-- Witness for the amended C2 at the degenerate input (5, 5, 5, Any). -/
theorem any_policy_filters_witness :
    ((5 : ℚ) ≤ 5 ∧
      (generate_labels 5 5 5 LabelRange.Any).head? = some 1 ∧
      (generate_labels 5 5 5 LabelRange.Any).getLast? = some 1) ∧
    (¬((1 : ℚ) < 5 ∧ (5 : ℚ) < 1) ∧
      (((1 : ℚ) = 1 ∧ (1 : ℚ) = 1) ∨ ¬((5 : ℚ) < 1 ∧ (1 : ℚ) < 5))) :=
  ⟨⟨le_refl 5, by rw [generate_labels_degenerate]; rfl, by rw [generate_labels_degenerate]; rfl⟩,
    any_policy_filters 5 5 5 (le_refl 5) 1 1
      (by rw [generate_labels_degenerate]; rfl) (by rw [generate_labels_degenerate]; rfl)⟩

/-- C9: for every budget of at least 3 rounds, get_precision returns 1 for
0.1, 2 for 0.25 and 0 for 3.0, and in each case the returned digit count is
the least d for which rounding to d decimal digits reproduces the value
(the loop tests d = 0, 1, 2, ... in order and stops at the first success). -/
theorem get_precision_values :
    ∀ fuel : ℕ, 3 ≤ fuel →
      (get_precision fuel (1 / 10) = some 1 ∧
        get_precision fuel (1 / 4) = some 2 ∧
        get_precision fuel 3 = some 0) ∧
      ((¬roundTrip (1 / 10) 0 ∧ roundTrip (1 / 10) 1) ∧
        (¬roundTrip (1 / 4) 0 ∧ ¬roundTrip (1 / 4) 1 ∧ roundTrip (1 / 4) 2) ∧
        roundTrip 3 0) := by
  intro fuel hf
  obtain ⟨f, rfl⟩ : ∃ f, fuel = f + 3 := ⟨fuel - 3, by omega⟩
  refine ⟨⟨?_, ?_, ?_⟩, ?_, ?_, ?_⟩
  · show getPrecisionAux (1 / 10) (f + 3) 0 = some 1
    simp only [getPrecisionAux]
    rw [if_neg (by decide), if_pos (by decide)]
  · show getPrecisionAux (1 / 4) (f + 3) 0 = some 2
    simp only [getPrecisionAux]
    rw [if_neg (by decide), if_neg (by decide), if_pos (by decide)]
  · show getPrecisionAux 3 (f + 3) 0 = some 0
    simp only [getPrecisionAux]
    rw [if_pos (by decide)]
  · exact ⟨by simp only [roundTrip]; decide, by simp only [roundTrip]; decide⟩
  · exact ⟨by simp only [roundTrip]; decide, by simp only [roundTrip]; decide,
      by simp only [roundTrip]; decide⟩
  · simp only [roundTrip]
    decide

/-- Witness for C9 at the budget 16. -/
theorem get_precision_values_witness :
    3 ≤ 16 ∧
    ((get_precision 16 (1 / 10) = some 1 ∧
        get_precision 16 (1 / 4) = some 2 ∧
        get_precision 16 3 = some 0) ∧
      ((¬roundTrip (1 / 10) 0 ∧ roundTrip (1 / 10) 1) ∧
        (¬roundTrip (1 / 4) 0 ∧ ¬roundTrip (1 / 4) 1 ∧ roundTrip (1 / 4) 2) ∧
        roundTrip 3 0)) :=
  ⟨by norm_num, get_precision_values 16 (by norm_num)⟩

end ConcreteEvaluations

end Birog
